import Mathlib

/-!
Verification of the two simulation engines of the contribution-GIF repository:
the shooter engine (`generate_contribution_gif.py`) and the generalized-ant
automaton engine (`generate_contribution_life_gif.py`).

Conventions of the embedding:
* Python `dict[tuple[int,int], int]` (enemy formation) is an association list
  `Enemies`; dictionary semantics (unique keys) is carried as a `Nodup`
  hypothesis where a claim depends on it.
* Python `%` on ints is `Int.emod` (both return a result with the sign of the
  modulus).
* Python float arithmetic in `compute_enemy_move_interval` (`total_hp * 1.3`)
  is modelled with exact rational arithmetic (`13 * total_hp / 10`) and
  `int(·)` as floor, which agrees with the float computation on all inputs
  used in the development.
-/

/-- A bullet, as the `Bullet` dataclass: an `(x, y)` grid position. -/
structure Bullet where
  x : Int
  y : Int
deriving Repr, DecidableEq

/-- The enemy formation: the Python dict from relative coordinates to hit
points, as an association list in insertion order. -/
abbrev Enemies := List ((Int × Int) × Int)

/-- Sum of all hit points in the formation (`sum(enemies.values())`). -/
def totalHP (enemies : Enemies) : Int :=
  (enemies.map (fun e => e.2)).sum

/-- `move_ship_towards` from the shooter script, verbatim. -/
def move_ship_towards (ship_x target_x width : Int) : Int :=
  if target_x > ship_x then min (width - 1) (ship_x + 1)
  else if target_x < ship_x then max 0 (ship_x - 1)
  else ship_x

/-- `compute_enemy_move_interval` from the shooter script.
`int(total_hp * 1.3 + width * 6)` is modelled exactly: `13 * total_hp / 10`
is the floor of `total_hp * 1.3`, and adding the integer `width * 6` commutes
with the floor.  `ceil(estimated / denom)` on naturals is
`(estimated + denom - 1) / denom`. -/
def compute_enemy_move_interval (total_hp width max_descents : Nat) : Nat :=
  let estimated := 13 * total_hp / 10 + width * 6
  let denom := max 1 (width * max_descents)
  let raw := (estimated + denom - 1) / denom
  max 28 (min 180 raw)

/-- The interval formula exactly as the spec words it: the ceiling of the
EXACT rational quotient `(totalHP * 1.3 + width * 6) / (width * maxDescents)`,
clamped to `[28, 180]`.  Multiplying numerator and denominator by 10 keeps the
computation in naturals: the quotient is `(13*totalHP + 60*width) /
(10*width*maxDescents)`. -/
def specMoveInterval (total_hp width max_descents : Nat) : Nat :=
  let num := 13 * total_hp + 60 * width
  let den := 10 * (width * max_descents)
  let raw := (num + den - 1) / den
  max 28 (min 180 raw)

/-- The interval formula with the numerator truncated to an integer before
the ceiling division, mirroring the `int(...)` in the source: `clamp(ceil(
(⌊totalHP * 1.3⌋ + width * 6) / (width * maxDescents)), 28, 180)`. -/
def specMoveIntervalFloor (total_hp width max_descents : Nat) : Nat :=
  let num := 13 * total_hp / 10 + width * 6
  let den := width * max_descents
  let raw := (num + den - 1) / den
  max 28 (min 180 raw)

/-- C8: one application of `move_ship_towards` moves the ship by at most one
column, toward and never past the target, and keeps it inside
`[0, width-1]`. -/
theorem ship_step_bounded (ship_x target_x width : Int)
    (hlo : 0 ≤ ship_x) (hhi : ship_x < width) :
    (move_ship_towards ship_x target_x width - ship_x ≤ 1 ∧
      ship_x - move_ship_towards ship_x target_x width ≤ 1) ∧
    min ship_x target_x ≤ move_ship_towards ship_x target_x width ∧
    move_ship_towards ship_x target_x width ≤ max ship_x target_x ∧
    0 ≤ move_ship_towards ship_x target_x width ∧
    move_ship_towards ship_x target_x width < width := by
  unfold move_ship_towards
  split <;> [skip; split] <;>
    constructor <;> simp_all [min_def, max_def] <;> omega

/-- Witness for `ship_step_bounded` at ship 3, target 7, width 5. -/
theorem ship_step_bounded_witness :
    (move_ship_towards 3 7 5 - 3 ≤ 1 ∧ 3 - move_ship_towards 3 7 5 ≤ 1) ∧
    min 3 7 ≤ move_ship_towards 3 7 5 ∧
    move_ship_towards 3 7 5 ≤ max 3 7 ∧
    0 ≤ move_ship_towards 3 7 5 ∧
    move_ship_towards 3 7 5 < 5 :=
  ship_step_bounded 3 7 5 (by decide) (by decide)

/-- C5 counterexample: at `totalHP = 31`, `width = 1`, `maxDescents = 1`,
the code computes 46 (it truncates `31 * 1.3 + 6 = 46.3` to 46 before the
ceiling division) while the spec's exact-rational formula gives
`ceil(46.3) = 47`. -/
theorem move_interval_diverges_from_spec :
    compute_enemy_move_interval 31 1 1 = 46 ∧
    specMoveInterval 31 1 1 = 47 ∧
    compute_enemy_move_interval 31 1 1 ≠ specMoveInterval 31 1 1 := by
  refine ⟨by decide, by decide, by decide⟩

/-- C5 (amended): for `width ≥ 1` and `maxDescents ≥ 1` the precomputed
move interval equals `clamp(ceil((⌊totalHP * 1.3⌋ + width * 6) /
(width * maxDescents)), 28, 180)` — the numerator is truncated to an
integer before the ceiling division. -/
theorem move_interval_eq_floor_formula (total_hp width max_descents : Nat)
    (hw : 1 ≤ width) (hm : 1 ≤ max_descents) :
    compute_enemy_move_interval total_hp width max_descents =
      specMoveIntervalFloor total_hp width max_descents := by
  unfold compute_enemy_move_interval specMoveIntervalFloor
  have hden : max 1 (width * max_descents) = width * max_descents := by
    have : 1 ≤ width * max_descents := Nat.one_le_iff_ne_zero.mpr (by positivity)
    omega
  simp [hden]

/-- Witness for `move_interval_eq_floor_formula` at `(31, 1, 1)`. -/
theorem move_interval_eq_floor_formula_witness :
    compute_enemy_move_interval 31 1 1 = specMoveIntervalFloor 31 1 1 :=
  move_interval_eq_floor_formula 31 1 1 (by decide) (by decide)

/-- Strict lexicographic comparison of the three-component targeting key
`(row, -|dx|, hp)`, as Python compares the tuples produced by the `max`
key function in `pick_target_column`. -/
def lexLt (a b : Int × Int × Int) : Bool :=
  a.1 < b.1 || (a.1 == b.1 && (a.2.1 < b.2.1 || (a.2.1 == b.2.1 && a.2.2 < b.2.2)))

/-- The targeting key of a candidate `(absolute x, absolute y, hp)`:
`(e[1], -abs(e[0] - ship_x), e[2])`. -/
def candKey (ship_x : Int) (c : Int × Int × Int) : Int × Int × Int :=
  (c.2.1, -|c.1 - ship_x|, c.2.2)

/-- Python's `max(..., key=...)`: scan left to right, replacing the current
best only on a strictly greater key, so the FIRST maximal element wins. -/
def maxByKey (key : α → Int × Int × Int) : α → List α → α
  | best, [] => best
  | best, c :: cs => maxByKey key (if lexLt (key best) (key c) then c else best) cs

/-- The candidate list of `pick_target_column`: one `(absolute x, absolute y,
hp)` triple per live enemy. -/
def targetCandidates (enemies : Enemies) (formation_x formation_y : Int) :
    List (Int × Int × Int) :=
  (enemies.filter (fun e => decide (0 < e.2))).map
    (fun e => (formation_x + e.1.1, formation_y + e.1.2, e.2))

/-- `pick_target_column` from the shooter script.  Python's `max` raises on an
empty candidate list; the embedding returns `none` there. -/
def pick_target_column (enemies : Enemies) (formation_x formation_y ship_x : Int) :
    Option Int :=
  match targetCandidates enemies formation_x formation_y with
  | [] => none
  | c :: cs => some (maxByKey (candKey ship_x) c cs).1

lemma lexLt_iff (a b : Int × Int × Int) :
    lexLt a b = true ↔
      (a.1 < b.1 ∨ (a.1 = b.1 ∧ (a.2.1 < b.2.1 ∨ (a.2.1 = b.2.1 ∧ a.2.2 < b.2.2)))) := by
  simp [lexLt]

lemma lexLt_eq_false_iff (a b : Int × Int × Int) :
    lexLt a b = false ↔
      ¬(a.1 < b.1 ∨ (a.1 = b.1 ∧ (a.2.1 < b.2.1 ∨ (a.2.1 = b.2.1 ∧ a.2.2 < b.2.2)))) := by
  rw [← lexLt_iff]
  exact ⟨fun h => by simp [h], fun h => by simpa using h⟩

lemma lexLt_irrefl (a : Int × Int × Int) : lexLt a a = false := by
  rw [lexLt_eq_false_iff]; omega

lemma not_lexLt_trans {x y z : Int × Int × Int}
    (h1 : lexLt y x = false) (h2 : lexLt z y = false) : lexLt z x = false := by
  rw [lexLt_eq_false_iff] at *
  omega

lemma not_lexLt_of_not_lt_of_lt {x b c : Int × Int × Int}
    (h1 : lexLt x c = false) (h2 : lexLt b c = true) : lexLt x b = false := by
  rw [lexLt_eq_false_iff] at *
  rw [lexLt_iff] at h2
  omega

lemma maxByKey_spec (key : α → Int × Int × Int) (l : List α) (best : α) :
    (maxByKey key best l = best ∨ maxByKey key best l ∈ l) ∧
    lexLt (key (maxByKey key best l)) (key best) = false ∧
    ∀ d ∈ l, lexLt (key (maxByKey key best l)) (key d) = false := by
  induction l generalizing best with
  | nil => exact ⟨Or.inl rfl, lexLt_irrefl _, by simp⟩
  | cons c cs ih =>
    by_cases hlt : lexLt (key best) (key c) = true
    · have hstep : maxByKey key best (c :: cs) = maxByKey key c cs := by
        simp [maxByKey, hlt]
      obtain ⟨hmem, hbest, hall⟩ := ih c
      rw [hstep]
      refine ⟨?_, ?_, ?_⟩
      · rcases hmem with h | h
        · exact Or.inr (by simp [h])
        · exact Or.inr (by simp [h])
      · exact not_lexLt_of_not_lt_of_lt hbest hlt
      · intro d hd
        rcases List.mem_cons.mp hd with rfl | hd
        · exact hbest
        · exact hall d hd
    · have hlt' : lexLt (key best) (key c) = false := by
        cases h : lexLt (key best) (key c)
        · rfl
        · exact absurd h hlt
      have hstep : maxByKey key best (c :: cs) = maxByKey key best cs := by
        simp [maxByKey, hlt']
      obtain ⟨hmem, hbest, hall⟩ := ih best
      rw [hstep]
      refine ⟨?_, hbest, ?_⟩
      · rcases hmem with h | h
        · exact Or.inl h
        · exact Or.inr (by simp [h])
      · intro d hd
        rcases List.mem_cons.mp hd with rfl | hd
        · exact not_lexLt_trans hlt' hbest
        · exact hall d hd

/-- C1: outside chaos mode, the selected target column is the absolute column
of a live enemy whose key `(absolute row, -|column - ship_x|, hp)` is
lexicographically maximal among all live enemies (no live enemy has a
strictly greater key). -/
theorem target_column_is_priority_max (enemies : Enemies)
    (formation_x formation_y ship_x : Int)
    (h : ∃ e ∈ enemies, 0 < e.2) :
    ∃ t, pick_target_column enemies formation_x formation_y ship_x = some t ∧
      ∃ e ∈ enemies, 0 < e.2 ∧ t = formation_x + e.1.1 ∧
        ∀ e2 ∈ enemies, 0 < e2.2 →
          lexLt
            (candKey ship_x (formation_x + e.1.1, formation_y + e.1.2, e.2))
            (candKey ship_x (formation_x + e2.1.1, formation_y + e2.1.2, e2.2))
            = false := by
  obtain ⟨e0, he0, he0hp⟩ := h
  have hmem0 : (formation_x + e0.1.1, formation_y + e0.1.2, e0.2) ∈
      targetCandidates enemies formation_x formation_y := by
    unfold targetCandidates
    exact List.mem_map_of_mem _ (List.mem_filter.mpr ⟨he0, by simpa using he0hp⟩)
  obtain ⟨c, cs, hcands⟩ : ∃ c cs,
      targetCandidates enemies formation_x formation_y = c :: cs := by
    cases hc : targetCandidates enemies formation_x formation_y with
    | nil => rw [hc] at hmem0; exact absurd hmem0 (List.not_mem_nil _)
    | cons c cs => exact ⟨c, cs, rfl⟩
  have hpick : pick_target_column enemies formation_x formation_y ship_x =
      some (maxByKey (candKey ship_x) c cs).1 := by
    unfold pick_target_column
    rw [hcands]
  obtain ⟨hmem, _, hall⟩ := maxByKey_spec (candKey ship_x) cs c
  have hmemall : maxByKey (candKey ship_x) c cs ∈
      targetCandidates enemies formation_x formation_y := by
    rw [hcands]
    rcases hmem with hm | hm
    · simp [hm]
    · simp [hm]
  obtain ⟨e, hef, heq⟩ := List.mem_map.mp (by
    unfold targetCandidates at hmemall
    exact hmemall)
  obtain ⟨hee, hehp⟩ := List.mem_filter.mp hef
  refine ⟨(maxByKey (candKey ship_x) c cs).1, hpick, e, hee, by simpa using hehp, ?_, ?_⟩
  · rw [← heq]
  · intro e2 he2 he2hp
    have hc2 : (formation_x + e2.1.1, formation_y + e2.1.2, e2.2) ∈
        targetCandidates enemies formation_x formation_y := by
      unfold targetCandidates
      exact List.mem_map_of_mem _ (List.mem_filter.mpr ⟨he2, by simpa using he2hp⟩)
    rw [hcands] at hc2
    have hnb : ∀ d ∈ c :: cs,
        lexLt (candKey ship_x (maxByKey (candKey ship_x) c cs)) (candKey ship_x d)
          = false := by
      intro d hd
      rcases List.mem_cons.mp hd with hdc | hd
      · rw [hdc]
        exact (maxByKey_spec (candKey ship_x) cs c).2.1
      · exact hall d hd
    have := hnb _ hc2
    rw [heq]
    exact this

/-- Witness for `target_column_is_priority_max`: two live enemies, the lower
row wins. -/
theorem target_column_is_priority_max_witness :
    (∃ e ∈ ([((0, 0), 1), ((1, 1), 2)] : Enemies), 0 < e.2) ∧
    (∃ t, pick_target_column [((0, 0), 1), ((1, 1), 2)] 1 2 0 = some t ∧
      ∃ e ∈ ([((0, 0), 1), ((1, 1), 2)] : Enemies), 0 < e.2 ∧ t = 1 + e.1.1 ∧
        ∀ e2 ∈ ([((0, 0), 1), ((1, 1), 2)] : Enemies), 0 < e2.2 →
          lexLt (candKey 0 (1 + e.1.1, 2 + e.1.2, e.2))
            (candKey 0 (1 + e2.1.1, 2 + e2.1.2, e2.2)) = false) :=
  ⟨by decide, target_column_is_priority_max [((0, 0), 1), ((1, 1), 2)] 1 2 0 (by decide)⟩

/-- The x offsets of live enemies, as `enemy_bounds` collects them
(`[x for (x, _), hp in enemies.items() if hp > 0]`). -/
def liveXs (enemies : Enemies) : List Int :=
  (enemies.filter (fun e => decide (0 < e.2))).map (fun e => e.1.1)

/-- Python `min` over a list, folding from the head (0 on the empty list,
where Python raises). -/
def listMin : List Int → Int
  | [] => 0
  | x :: xs => xs.foldl min x

/-- Python `max` over a list, folding from the head (0 on the empty list,
where Python raises). -/
def listMax : List Int → Int
  | [] => 0
  | x :: xs => xs.foldl max x

/-- `step_enemy_formation` from the shooter script: returns the new
`(formation_x, formation_y, direction)`. -/
def step_enemy_formation (enemies : Enemies)
    (width formation_x formation_y direction : Int) : Int × Int × Int :=
  if enemies.isEmpty then (formation_x, formation_y, direction)
  else
    let min_x := listMin (liveXs enemies)
    let max_x := listMax (liveXs enemies)
    if formation_x + max_x + direction ≥ width ∨
        formation_x + min_x + direction < 0 then
      (formation_x, formation_y + 1, -direction)
    else
      (formation_x + direction, formation_y, direction)

lemma foldl_min_le (xs : List Int) (a : Int) :
    xs.foldl min a ≤ a ∧ ∀ x ∈ xs, xs.foldl min a ≤ x := by
  induction xs generalizing a with
  | nil => exact ⟨le_refl a, by simp⟩
  | cons x xs ih =>
    obtain ⟨h1, h2⟩ := ih (min a x)
    refine ⟨le_trans h1 (min_le_left a x), ?_⟩
    intro y hy
    rcases List.mem_cons.mp hy with hyx | hy
    · rw [hyx]; exact le_trans h1 (min_le_right a x)
    · exact h2 y hy

lemma foldl_max_ge (xs : List Int) (a : Int) :
    a ≤ xs.foldl max a ∧ ∀ x ∈ xs, x ≤ xs.foldl max a := by
  induction xs generalizing a with
  | nil => exact ⟨le_refl a, by simp⟩
  | cons x xs ih =>
    obtain ⟨h1, h2⟩ := ih (max a x)
    refine ⟨le_trans (le_max_left a x) h1, ?_⟩
    intro y hy
    rcases List.mem_cons.mp hy with hyx | hy
    · rw [hyx]; exact le_trans (le_max_right a x) h1
    · exact h2 y hy

lemma foldl_min_mem (xs : List Int) (a : Int) :
    xs.foldl min a = a ∨ xs.foldl min a ∈ xs := by
  induction xs generalizing a with
  | nil => exact Or.inl rfl
  | cons x xs ih =>
    rcases ih (min a x) with h | h
    · rcases min_choice a x with hc | hc
      · exact Or.inl (by rw [List.foldl_cons, h, hc])
      · exact Or.inr (by rw [List.foldl_cons, h, hc]; exact List.mem_cons_self x xs)
    · exact Or.inr (List.mem_cons_of_mem _ h)

lemma foldl_max_mem (xs : List Int) (a : Int) :
    xs.foldl max a = a ∨ xs.foldl max a ∈ xs := by
  induction xs generalizing a with
  | nil => exact Or.inl rfl
  | cons x xs ih =>
    rcases ih (max a x) with h | h
    · rcases max_choice a x with hc | hc
      · exact Or.inl (by rw [List.foldl_cons, h, hc])
      · exact Or.inr (by rw [List.foldl_cons, h, hc]; exact List.mem_cons_self x xs)
    · exact Or.inr (List.mem_cons_of_mem _ h)

lemma mem_liveXs_iff (enemies : Enemies) (x : Int) :
    x ∈ liveXs enemies ↔ ∃ e ∈ enemies, 0 < e.2 ∧ e.1.1 = x := by
  unfold liveXs
  simp only [List.mem_map, List.mem_filter, decide_eq_true_eq]
  constructor
  · rintro ⟨e, ⟨he, hhp⟩, hx⟩
    exact ⟨e, he, hhp, hx⟩
  · rintro ⟨e, he, hhp, hx⟩
    exact ⟨e, ⟨he, hhp⟩, hx⟩

/-- C4: with at least one live enemy and a unit direction, the formation step
reverses direction and descends exactly one row (anchor x unchanged) exactly
when continuing would push some live enemy's absolute column outside
`[0, width-1]`; otherwise the anchor moves one column in the current
direction without descending.  Reversal is equivalent to that boundary
condition. -/
theorem formation_bounce_iff_boundary (enemies : Enemies)
    (width formation_x formation_y direction : Int)
    (hlive : ∃ e ∈ enemies, 0 < e.2)
    (hdir : direction = 1 ∨ direction = -1) :
    ((∃ e ∈ enemies, 0 < e.2 ∧
        (formation_x + e.1.1 + direction < 0 ∨
          formation_x + e.1.1 + direction ≥ width)) →
      step_enemy_formation enemies width formation_x formation_y direction =
        (formation_x, formation_y + 1, -direction)) ∧
    ((∀ e ∈ enemies, 0 < e.2 →
        0 ≤ formation_x + e.1.1 + direction ∧
          formation_x + e.1.1 + direction < width) →
      step_enemy_formation enemies width formation_x formation_y direction =
        (formation_x + direction, formation_y, direction)) ∧
    ((step_enemy_formation enemies width formation_x formation_y direction).2.2 =
        -direction ↔
      ∃ e ∈ enemies, 0 < e.2 ∧
        (formation_x + e.1.1 + direction < 0 ∨
          formation_x + e.1.1 + direction ≥ width)) := by
  obtain ⟨e0, he0, he0hp⟩ := hlive
  have hne : enemies.isEmpty = false := by
    cases enemies with
    | nil => exact absurd he0 (List.not_mem_nil _)
    | cons a l => rfl
  obtain ⟨x0, xs0, hxs⟩ : ∃ x0 xs0, liveXs enemies = x0 :: xs0 := by
    have : e0.1.1 ∈ liveXs enemies :=
      (mem_liveXs_iff enemies e0.1.1).mpr ⟨e0, he0, he0hp, rfl⟩
    cases hl : liveXs enemies with
    | nil => rw [hl] at this; exact absurd this (List.not_mem_nil _)
    | cons a l => exact ⟨a, l, rfl⟩
  have hminmem : listMin (liveXs enemies) ∈ liveXs enemies := by
    rw [hxs]
    unfold listMin
    rcases foldl_min_mem xs0 x0 with h | h
    · simp [h]
    · simp [h]
  have hmaxmem : listMax (liveXs enemies) ∈ liveXs enemies := by
    rw [hxs]
    unfold listMax
    rcases foldl_max_mem xs0 x0 with h | h
    · simp [h]
    · simp [h]
  have hminle : ∀ x ∈ liveXs enemies, listMin (liveXs enemies) ≤ x := by
    rw [hxs]
    intro x hx
    unfold listMin
    rcases List.mem_cons.mp hx with hx0 | hx
    · rw [hx0]; exact (foldl_min_le xs0 x0).1
    · exact (foldl_min_le xs0 x0).2 x hx
  have hmaxge : ∀ x ∈ liveXs enemies, x ≤ listMax (liveXs enemies) := by
    rw [hxs]
    intro x hx
    unfold listMax
    rcases List.mem_cons.mp hx with hx0 | hx
    · rw [hx0]; exact (foldl_max_ge xs0 x0).1
    · exact (foldl_max_ge xs0 x0).2 x hx
  have hcond : (formation_x + listMax (liveXs enemies) + direction ≥ width ∨
      formation_x + listMin (liveXs enemies) + direction < 0) ↔
      ∃ e ∈ enemies, 0 < e.2 ∧
        (formation_x + e.1.1 + direction < 0 ∨
          formation_x + e.1.1 + direction ≥ width) := by
    constructor
    · rintro (h | h)
      · obtain ⟨e, he, hhp, hx⟩ := (mem_liveXs_iff enemies _).mp hmaxmem
        exact ⟨e, he, hhp, Or.inr (by rw [hx]; exact h)⟩
      · obtain ⟨e, he, hhp, hx⟩ := (mem_liveXs_iff enemies _).mp hminmem
        exact ⟨e, he, hhp, Or.inl (by rw [hx]; exact h)⟩
    · rintro ⟨e, he, hhp, h | h⟩
      · have hmem : e.1.1 ∈ liveXs enemies :=
          (mem_liveXs_iff enemies e.1.1).mpr ⟨e, he, hhp, rfl⟩
        exact Or.inr (by have := hminle _ hmem; omega)
      · have hmem : e.1.1 ∈ liveXs enemies :=
          (mem_liveXs_iff enemies e.1.1).mpr ⟨e, he, hhp, rfl⟩
        exact Or.inl (by have := hmaxge _ hmem; omega)
  refine ⟨?_, ?_, ?_⟩
  · intro hex
    unfold step_enemy_formation
    rw [hne]
    simp only [Bool.false_eq_true, if_false]
    rw [if_pos (hcond.mpr hex)]
  · intro hall
    unfold step_enemy_formation
    rw [hne]
    simp only [Bool.false_eq_true, if_false]
    rw [if_neg ?_]
    intro hc
    obtain ⟨e, he, hhp, hout⟩ := hcond.mp hc
    have := hall e he hhp
    omega
  · constructor
    · intro hrev
      by_contra hnex
      have hall : ∀ e ∈ enemies, 0 < e.2 →
          0 ≤ formation_x + e.1.1 + direction ∧
            formation_x + e.1.1 + direction < width := by
        intro e he hhp
        by_contra hbad
        exact hnex ⟨e, he, hhp, by omega⟩
      have hstep : step_enemy_formation enemies width formation_x formation_y
          direction = (formation_x + direction, formation_y, direction) := by
        unfold step_enemy_formation
        rw [hne]
        simp only [Bool.false_eq_true, if_false]
        rw [if_neg ?_]
        intro hc
        obtain ⟨e, he, hhp, hout⟩ := hcond.mp hc
        have := hall e he hhp
        omega
      rw [hstep] at hrev
      simp only at hrev
      omega
    · intro hex
      have hstep : step_enemy_formation enemies width formation_x formation_y
          direction = (formation_x, formation_y + 1, -direction) := by
        unfold step_enemy_formation
        rw [hne]
        simp only [Bool.false_eq_true, if_false]
        rw [if_pos (hcond.mpr hex)]
      rw [hstep]

/-- Witness for `formation_bounce_iff_boundary`: single enemy at offset 0,
anchor column 2 of a width-3 grid moving right, which forces a bounce. -/
theorem formation_bounce_iff_boundary_witness :
    (∃ e ∈ ([((0, 0), 1)] : Enemies), 0 < e.2) ∧
    ((1 : Int) = 1 ∨ (1 : Int) = -1) ∧
    (((∃ e ∈ ([((0, 0), 1)] : Enemies), 0 < e.2 ∧
        ((2 : Int) + e.1.1 + 1 < 0 ∨ (2 : Int) + e.1.1 + 1 ≥ 3)) →
      step_enemy_formation [((0, 0), 1)] 3 2 0 1 = (2, 0 + 1, -1)) ∧
    ((∀ e ∈ ([((0, 0), 1)] : Enemies), 0 < e.2 →
        0 ≤ (2 : Int) + e.1.1 + 1 ∧ (2 : Int) + e.1.1 + 1 < 3) →
      step_enemy_formation [((0, 0), 1)] 3 2 0 1 = (2 + 1, 0, 1)) ∧
    ((step_enemy_formation [((0, 0), 1)] 3 2 0 1).2.2 = -1 ↔
      ∃ e ∈ ([((0, 0), 1)] : Enemies), 0 < e.2 ∧
        ((2 : Int) + e.1.1 + 1 < 0 ∨ (2 : Int) + e.1.1 + 1 ≥ 3))) :=
  ⟨by decide, by decide,
    formation_bounce_iff_boundary [((0, 0), 1)] 3 2 0 1 (by decide) (by decide)⟩

/-- Python dict lookup: `enemies[rel]` guarded by `rel in enemies`. -/
def dictLookup (enemies : Enemies) (k : Int × Int) : Option Int :=
  match enemies.find? (fun e => decide (e.1 = k)) with
  | some e => some e.2
  | none => none

/-- Python dict value update at key `k` (`enemies[rel] -= 1` writes back). -/
def dictSet (enemies : Enemies) (k : Int × Int) (v : Int) : Enemies :=
  enemies.map (fun e => if e.1 = k then (e.1, v) else e)

/-- Python `del enemies[rel]`. -/
def dictErase (enemies : Enemies) (k : Int × Int) : Enemies :=
  enemies.filter (fun e => decide (e.1 ≠ k))

/-- All hit points in the formation lie in `[1, 4]`. -/
def hpInv (enemies : Enemies) : Prop :=
  ∀ e ∈ enemies, 1 ≤ e.2 ∧ e.2 ≤ 4

/-- The formation keys are pairwise distinct, as in a Python dict. -/
def keysNodup (enemies : Enemies) : Prop :=
  (enemies.map Prod.fst).Nodup

/-- The inner sub-step loop of `move_bullets_and_apply_hits` for one bullet:
up to `bullet_speed` single-row moves, breaking when the bullet exits above
row 0 (destroyed, missed) or hits a live enemy (hp decremented, entry removed
at 0, bullet destroyed).  Returns the updated formation and the bullet if it
survived. -/
def stepBullet (enemies : Enemies) (formation_x formation_y : Int) :
    Bullet → Nat → Enemies × Option Bullet
  | b, 0 => (enemies, some b)
  | b, n + 1 =>
    if b.y - 1 < 0 then (enemies, none)
    else
      match dictLookup enemies (b.x - formation_x, b.y - 1 - formation_y) with
      | some hp =>
        if 0 < hp then
          if hp - 1 ≤ 0 then
            (dictErase enemies (b.x - formation_x, b.y - 1 - formation_y), none)
          else
            (dictSet enemies (b.x - formation_x, b.y - 1 - formation_y) (hp - 1),
              none)
        else stepBullet enemies formation_x formation_y ⟨b.x, b.y - 1⟩ n
      | none => stepBullet enemies formation_x formation_y ⟨b.x, b.y - 1⟩ n

/-- `move_bullets_and_apply_hits`: bullets are processed in list order and the
formation is threaded through; the survivors are returned in order (the
Python loop appends each surviving bullet to `next_bullets`). -/
def move_bullets_and_apply_hits (bullets : List Bullet) (enemies : Enemies)
    (formation_x formation_y : Int) (bullet_speed : Nat) :
    Enemies × List Bullet :=
  match bullets with
  | [] => (enemies, [])
  | b :: rest =>
    match stepBullet enemies formation_x formation_y b bullet_speed with
    | (es2, some b2) =>
      ((move_bullets_and_apply_hits rest es2 formation_x formation_y
          bullet_speed).1,
        b2 :: (move_bullets_and_apply_hits rest es2 formation_x formation_y
          bullet_speed).2)
    | (es2, none) =>
      move_bullets_and_apply_hits rest es2 formation_x formation_y bullet_speed

lemma dictLookup_eq_some {es : Enemies} {k : Int × Int} {hp : Int}
    (h : dictLookup es k = some hp) : ∃ e ∈ es, e.1 = k ∧ e.2 = hp := by
  unfold dictLookup at h
  cases hf : es.find? (fun e => decide (e.1 = k)) with
  | none => rw [hf] at h; exact absurd h (by simp)
  | some e =>
    rw [hf] at h
    have hmem := List.mem_of_find?_eq_some hf
    have hpred := List.find?_some hf
    simp only [decide_eq_true_eq] at hpred
    exact ⟨e, hmem, hpred, by simpa using h⟩

lemma hpInv_dictSet {es : Enemies} {k : Int × Int} {v : Int}
    (h : hpInv es) (h1 : 1 ≤ v) (h4 : v ≤ 4) : hpInv (dictSet es k v) := by
  intro e he
  unfold dictSet at he
  obtain ⟨e0, he0, heq⟩ := List.mem_map.mp he
  by_cases hk : e0.1 = k
  · rw [if_pos hk] at heq
    rw [← heq]
    exact ⟨h1, h4⟩
  · rw [if_neg hk] at heq
    rw [← heq]
    exact h e0 he0

lemma hpInv_dictErase {es : Enemies} {k : Int × Int}
    (h : hpInv es) : hpInv (dictErase es k) := by
  intro e he
  exact h e (List.mem_of_mem_filter he)

lemma keysNodup_dictSet {es : Enemies} {k : Int × Int} {v : Int}
    (h : keysNodup es) : keysNodup (dictSet es k v) := by
  unfold keysNodup dictSet
  have : (es.map (fun e => if e.1 = k then (e.1, v) else e)).map Prod.fst =
      es.map Prod.fst := by
    rw [List.map_map]
    apply List.map_congr_left
    intro e _
    by_cases hk : e.1 = k
    · simp [hk]
    · simp [hk]
  rw [this]
  exact h

lemma keysNodup_dictErase {es : Enemies} {k : Int × Int}
    (h : keysNodup es) : keysNodup (dictErase es k) := by
  unfold keysNodup dictErase
  exact ((List.filter_sublist es).map Prod.fst).nodup h

lemma dictErase_of_not_mem {es : Enemies} {k : Int × Int}
    (h : k ∉ es.map Prod.fst) : dictErase es k = es := by
  unfold dictErase
  apply List.filter_eq_self.mpr
  intro e he
  simp only [decide_eq_true_eq]
  intro hk
  exact h (List.mem_map.mpr ⟨e, he, hk⟩)

lemma dictSet_of_not_mem {es : Enemies} {k : Int × Int} {v : Int}
    (h : k ∉ es.map Prod.fst) : dictSet es k v = es := by
  unfold dictSet
  have hmap : es.map (fun e => if e.1 = k then (e.1, v) else e) = es.map id := by
    apply List.map_congr_left
    intro e he
    rw [if_neg (fun hk => h (List.mem_map.mpr ⟨e, he, hk⟩))]
    rfl
  rw [hmap, List.map_id]

lemma totalHP_dictErase {es : Enemies} {k : Int × Int} {hp : Int}
    (hnd : keysNodup es) (hl : dictLookup es k = some hp) :
    totalHP (dictErase es k) = totalHP es - hp := by
  induction es with
  | nil => exact absurd hl (by simp [dictLookup])
  | cons e es ih =>
    unfold keysNodup at hnd
    rw [List.map_cons, List.nodup_cons] at hnd
    by_cases hk : e.1 = k
    · have hhp : hp = e.2 := by
        unfold dictLookup at hl
        rw [List.find?_cons_of_pos _ (by simpa using hk)] at hl
        simpa using hl.symm
      have hknm : k ∉ es.map Prod.fst := by rw [← hk]; exact hnd.1
      unfold dictErase
      rw [List.filter_cons_of_neg (by simpa using hk)]
      have : es.filter (fun e2 => decide (e2.1 ≠ k)) = es :=
        dictErase_of_not_mem hknm
      rw [this, hhp]
      unfold totalHP
      simp
  -- remaining: head key differs
    · have hl2 : dictLookup es k = some hp := by
        unfold dictLookup at hl ⊢
        rw [List.find?_cons_of_neg _ (by simpa using hk)] at hl
        exact hl
      unfold dictErase
      rw [List.filter_cons_of_pos (by simpa using hk)]
      have := ih hnd.2 hl2
      unfold dictErase at this
      unfold totalHP at this ⊢
      simp only [List.map_cons, List.sum_cons]
      omega

lemma totalHP_dictSet {es : Enemies} {k : Int × Int} {hp v : Int}
    (hnd : keysNodup es) (hl : dictLookup es k = some hp) :
    totalHP (dictSet es k v) = totalHP es - hp + v := by
  induction es with
  | nil => exact absurd hl (by simp [dictLookup])
  | cons e es ih =>
    unfold keysNodup at hnd
    rw [List.map_cons, List.nodup_cons] at hnd
    by_cases hk : e.1 = k
    · have hhp : hp = e.2 := by
        unfold dictLookup at hl
        rw [List.find?_cons_of_pos _ (by simpa using hk)] at hl
        simpa using hl.symm
      have hknm : k ∉ es.map Prod.fst := by rw [← hk]; exact hnd.1
      unfold dictSet
      rw [List.map_cons, if_pos hk]
      have : es.map (fun e2 => if e2.1 = k then (e2.1, v) else e2) = es :=
        dictSet_of_not_mem hknm
      rw [this, hhp]
      unfold totalHP
      simp only [List.map_cons, List.sum_cons]
      omega
    · have hl2 : dictLookup es k = some hp := by
        unfold dictLookup at hl ⊢
        rw [List.find?_cons_of_neg _ (by simpa using hk)] at hl
        exact hl
      unfold dictSet
      rw [List.map_cons, if_neg hk]
      have := ih hnd.2 hl2
      unfold dictSet at this
      unfold totalHP at this ⊢
      simp only [List.map_cons, List.sum_cons]
      omega

lemma stepBullet_enemies_spec (formation_x formation_y : Int) :
    ∀ (n : Nat) (b : Bullet) (es : Enemies), hpInv es → keysNodup es →
      hpInv (stepBullet es formation_x formation_y b n).1 ∧
      keysNodup (stepBullet es formation_x formation_y b n).1 ∧
      totalHP es - 1 ≤ totalHP (stepBullet es formation_x formation_y b n).1 ∧
      totalHP (stepBullet es formation_x formation_y b n).1 ≤ totalHP es := by
  intro n
  induction n with
  | zero =>
    intro b es hinv hnd
    simp only [stepBullet]
    exact ⟨hinv, hnd, by omega, le_refl _⟩
  | succ n ih =>
    intro b es hinv hnd
    simp only [stepBullet]
    by_cases hy : b.y - 1 < 0
    · rw [if_pos hy]
      refine ⟨hinv, hnd, ?_, ?_⟩ <;> dsimp only <;> omega
    · rw [if_neg hy]
      cases hl : dictLookup es (b.x - formation_x, b.y - 1 - formation_y) with
      | none => exact ih ⟨b.x, b.y - 1⟩ es hinv hnd
      | some hp =>
        dsimp only
        by_cases hhp : 0 < hp
        · rw [if_pos hhp]
          obtain ⟨e, he, hek, hehp⟩ := dictLookup_eq_some hl
          have hb1 : 1 ≤ hp := by rw [← hehp]; exact (hinv e he).1
          have hb4 : hp ≤ 4 := by rw [← hehp]; exact (hinv e he).2
          by_cases hz : hp - 1 ≤ 0
          · rw [if_pos hz]
            refine ⟨hpInv_dictErase hinv, keysNodup_dictErase hnd, ?_, ?_⟩
            · rw [totalHP_dictErase hnd hl]; omega
            · rw [totalHP_dictErase hnd hl]; omega
          · rw [if_neg hz]
            refine ⟨hpInv_dictSet hinv (by omega) (by omega),
              keysNodup_dictSet hnd, ?_, ?_⟩
            · rw [totalHP_dictSet hnd hl]; omega
            · rw [totalHP_dictSet hnd hl]; omega
        · rw [if_neg hhp]
          exact ih ⟨b.x, b.y - 1⟩ es hinv hnd

lemma stepBullet_survivor (formation_x formation_y : Int) :
    ∀ (n : Nat) (b : Bullet) (es es2 : Enemies) (b2 : Bullet),
      stepBullet es formation_x formation_y b n = (es2, some b2) →
      es2 = es ∧ b2.x = b.x ∧ b2.y = b.y - n ∧ (0 ≤ b2.y ∨ n = 0) := by
  intro n
  induction n with
  | zero =>
    intro b es es2 b2 h
    simp only [stepBullet, Prod.mk.injEq, Option.some.injEq] at h
    exact ⟨h.1.symm, by rw [← h.2], by rw [← h.2]; simp, Or.inr rfl⟩
  | succ n ih =>
    intro b es es2 b2 h
    simp only [stepBullet] at h
    by_cases hy : b.y - 1 < 0
    · rw [if_pos hy] at h
      simp at h
    · rw [if_neg hy] at h
      cases hl : dictLookup es (b.x - formation_x, b.y - 1 - formation_y) with
      | none =>
        rw [hl] at h
        obtain ⟨h1, h2, h3, h4⟩ := ih ⟨b.x, b.y - 1⟩ es es2 b2 h
        refine ⟨h1, h2, ?_, ?_⟩
        · simp only at h3
          push_cast
          omega
        · simp only at h3
          omega
      | some hp =>
        rw [hl] at h
        dsimp only at h
        by_cases hhp : 0 < hp
        · rw [if_pos hhp] at h
          by_cases hz : hp - 1 ≤ 0
          · rw [if_pos hz] at h
            simp at h
          · rw [if_neg hz] at h
            simp at h
        · rw [if_neg hhp] at h
          obtain ⟨h1, h2, h3, h4⟩ := ih ⟨b.x, b.y - 1⟩ es es2 b2 h
          refine ⟨h1, h2, ?_, ?_⟩
          · simp only at h3
            push_cast
            omega
          · simp only at h3
            omega

lemma move_bullets_enemies_spec (formation_x formation_y : Int) (speed : Nat) :
    ∀ (bullets : List Bullet) (es : Enemies), hpInv es → keysNodup es →
      hpInv (move_bullets_and_apply_hits bullets es formation_x formation_y
        speed).1 ∧
      keysNodup (move_bullets_and_apply_hits bullets es formation_x formation_y
        speed).1 ∧
      totalHP es - bullets.length ≤
        totalHP (move_bullets_and_apply_hits bullets es formation_x formation_y
          speed).1 ∧
      totalHP (move_bullets_and_apply_hits bullets es formation_x formation_y
        speed).1 ≤ totalHP es := by
  intro bullets
  induction bullets with
  | nil =>
    intro es hinv hnd
    simp only [move_bullets_and_apply_hits]
    exact ⟨hinv, hnd, by simp, le_refl _⟩
  | cons b rest ih =>
    intro es hinv hnd
    simp only [move_bullets_and_apply_hits]
    have hspec := stepBullet_enemies_spec formation_x formation_y speed b es
      hinv hnd
    cases hsb : stepBullet es formation_x formation_y b speed with
    | mk es2 ob =>
      rw [hsb] at hspec
      dsimp only at hspec
      obtain ⟨hinv2, hnd2, hlo, hhi⟩ := hspec
      obtain ⟨hinv3, hnd3, hlo3, hhi3⟩ := ih es2 hinv2 hnd2
      cases ob with
      | some b2 =>
        dsimp only
        refine ⟨hinv3, hnd3, ?_, ?_⟩
        · simp only [List.length_cons]
          push_cast
          omega
        · omega
      | none =>
        dsimp only
        refine ⟨hinv3, hnd3, ?_, ?_⟩
        · simp only [List.length_cons]
          push_cast
          omega
        · omega

lemma move_bullets_survivors (formation_x formation_y : Int) (speed : Nat) :
    ∀ (bullets : List Bullet) (es : Enemies) (b2 : Bullet),
      b2 ∈ (move_bullets_and_apply_hits bullets es formation_x formation_y
        speed).2 →
      ∃ b ∈ bullets, b2.x = b.x ∧ b2.y = b.y - speed ∧ (0 ≤ b2.y ∨ speed = 0) := by
  intro bullets
  induction bullets with
  | nil =>
    intro es b2 hb2
    simp [move_bullets_and_apply_hits] at hb2
  | cons b rest ih =>
    intro es b2 hb2
    simp only [move_bullets_and_apply_hits] at hb2
    cases hsb : stepBullet es formation_x formation_y b speed with
    | mk es2 ob =>
      rw [hsb] at hb2
      cases ob with
      | some b3 =>
        dsimp only at hb2
        rcases List.mem_cons.mp hb2 with hb23 | hb2r
        · obtain ⟨_, hx, hy, h0⟩ :=
            stepBullet_survivor formation_x formation_y speed b es es2 b3 hsb
          rw [hb23]
          exact ⟨b, List.mem_cons_self b rest, hx, hy, h0⟩
        · obtain ⟨b0, hb0, hprops⟩ := ih es2 b2 hb2r
          exact ⟨b0, List.mem_cons_of_mem b hb0, hprops⟩
      | none =>
        dsimp only at hb2
        obtain ⟨b0, hb0, hprops⟩ := ih es2 b2 hb2
        exact ⟨b0, List.mem_cons_of_mem b hb0, hprops⟩

/-- C2: one bullet-resolution tick preserves the hit-point invariant — every
formation value stays in `[1, 4]` (a decrement to 0 deletes the entry) — and
each bullet resolves at most one hit (total hit points drop by at most the
number of bullets, and never increase), while every surviving bullet advanced
exactly `bullet_speed` single-row sub-steps and sits at a row `≥ 0`. -/
theorem bullet_resolution_invariants (bullets : List Bullet) (enemies : Enemies)
    (formation_x formation_y : Int) (bullet_speed : Nat)
    (hs : 1 ≤ bullet_speed) (hinv : hpInv enemies) (hnd : keysNodup enemies) :
    hpInv (move_bullets_and_apply_hits bullets enemies formation_x formation_y
      bullet_speed).1 ∧
    totalHP (move_bullets_and_apply_hits bullets enemies formation_x
      formation_y bullet_speed).1 ≤ totalHP enemies ∧
    totalHP enemies - bullets.length ≤
      totalHP (move_bullets_and_apply_hits bullets enemies formation_x
        formation_y bullet_speed).1 ∧
    ∀ b2 ∈ (move_bullets_and_apply_hits bullets enemies formation_x
        formation_y bullet_speed).2,
      0 ≤ b2.y ∧ ∃ b ∈ bullets, b2.x = b.x ∧ b2.y = b.y - bullet_speed := by
  obtain ⟨h1, _, h3, h4⟩ := move_bullets_enemies_spec formation_x formation_y
    bullet_speed bullets enemies hinv hnd
  refine ⟨h1, h4, h3, ?_⟩
  intro b2 hb2
  obtain ⟨b, hb, hx, hy, h0⟩ := move_bullets_survivors formation_x formation_y
    bullet_speed bullets enemies b2 hb2
  exact ⟨h0.resolve_right (by omega), b, hb, hx, hy⟩

/-- Witness for `bullet_resolution_invariants`: one bullet one row below a
lone 1-hp enemy, which it destroys. -/
theorem bullet_resolution_invariants_witness :
    ((1 : Nat) ≤ 2 ∧ hpInv [((1, 1), 1)] ∧ keysNodup [((1, 1), 1)]) ∧
    (hpInv (move_bullets_and_apply_hits [⟨2, 3⟩] [((1, 1), 1)] 1 1 2).1 ∧
    totalHP (move_bullets_and_apply_hits [⟨2, 3⟩] [((1, 1), 1)] 1 1 2).1 ≤
      totalHP [((1, 1), 1)] ∧
    totalHP [((1, 1), 1)] - ([⟨2, 3⟩] : List Bullet).length ≤
      totalHP (move_bullets_and_apply_hits [⟨2, 3⟩] [((1, 1), 1)] 1 1 2).1 ∧
    ∀ b2 ∈ (move_bullets_and_apply_hits [⟨2, 3⟩] [((1, 1), 1)] 1 1 2).2,
      0 ≤ b2.y ∧ ∃ b ∈ ([⟨2, 3⟩] : List Bullet),
        b2.x = b.x ∧ b2.y = b.y - 2) :=
  ⟨⟨by decide, by unfold hpInv; decide, by unfold keysNodup; decide⟩,
    bullet_resolution_invariants [⟨2, 3⟩] [((1, 1), 1)] 1 1 2
      (by decide) (by unfold hpInv; decide) (by unfold keysNodup; decide)⟩

/-- Iterated bullet resolution: `k` consecutive ticks of
`move_bullets_and_apply_hits`, with an arbitrary formation anchor per tick
(as the anchor moves in a real run). -/
def runBullets (anchors : Nat → Int × Int) (speed : Nat) :
    Nat → Enemies × List Bullet → Enemies × List Bullet
  | 0, s => s
  | n + 1, s =>
    runBullets anchors speed n
      (move_bullets_and_apply_hits s.2 s.1 (anchors n).1 (anchors n).2 speed)

lemma runBullets_y_bound (anchors : Nat → Int × Int) (speed : Nat)
    (hs : 1 ≤ speed) :
    ∀ (k : Nat) (s : Enemies × List Bullet) (Y : Int),
      (∀ b ∈ s.2, b.y ≤ Y) →
      ∀ b2 ∈ (runBullets anchors speed k s).2,
        b2.y ≤ Y - k * speed ∧ (0 ≤ b2.y ∨ k = 0) := by
  intro k
  induction k with
  | zero =>
    intro s Y hY b2 hb2
    simp only [runBullets] at hb2
    refine ⟨?_, Or.inr rfl⟩
    have := hY b2 hb2
    push_cast
    omega
  | succ k ih =>
    intro s Y hY b2 hb2
    simp only [runBullets] at hb2
    have hY2 : ∀ b ∈ (move_bullets_and_apply_hits s.2 s.1 (anchors k).1
        (anchors k).2 speed).2, b.y ≤ Y - speed := by
      intro b hb
      obtain ⟨b0, hb0, _, hy, _⟩ := move_bullets_survivors (anchors k).1
        (anchors k).2 speed s.2 s.1 b hb
      have := hY b0 hb0
      omega
    obtain ⟨hle, hor⟩ := ih (move_bullets_and_apply_hits s.2 s.1 (anchors k).1
      (anchors k).2 speed) (Y - speed) hY2 b2 hb2
    constructor
    · push_cast at hle ⊢
      have hring : ((k : Int) + 1) * speed = k * speed + speed := by ring
      omega
    · rcases hor with h0 | hk0
      · exact Or.inl h0
      · subst hk0
        have hb2s : b2 ∈ (move_bullets_and_apply_hits s.2 s.1 (anchors 0).1
            (anchors 0).2 speed).2 := by
          simpa [runBullets] using hb2
        obtain ⟨b0, hb0, _, hy, h0⟩ := move_bullets_survivors (anchors 0).1
          (anchors 0).2 speed s.2 s.1 b2 hb2s
        exact Or.inl (h0.resolve_right (by omega))

/-- C7 (amended): while live, a bullet's `y` strictly decreases every tick
(by exactly `bullet_speed`), and every bullet starting at row `≤ Y` is gone
after any `k` ticks with `k * bullet_speed > Y`, i.e. within
`ceil((startY + 1) / bullet_speed)` ticks — one more tick than the claimed
`ceil(startY / bullet_speed)`, because a bullet sitting at row 0 is still
live and is destroyed only when it moves to row `-1`. -/
theorem bullet_strict_descent_and_removal (enemies : Enemies)
    (bullets : List Bullet) (anchors : Nat → Int × Int) (speed : Nat) (Y : Int)
    (hs : 1 ≤ speed) (hY0 : 0 ≤ Y) (hY : ∀ b ∈ bullets, b.y ≤ Y) :
    (∀ formation_x formation_y : Int,
      ∀ b2 ∈ (move_bullets_and_apply_hits bullets enemies formation_x
          formation_y speed).2,
        ∃ b ∈ bullets, b2.x = b.x ∧ b2.y = b.y - speed ∧ b2.y < b.y) ∧
    ∀ k : Nat, Y < k * speed →
      (runBullets anchors speed k (enemies, bullets)).2 = [] := by
  constructor
  · intro fx fy b2 hb2
    obtain ⟨b, hb, hx, hy, _⟩ := move_bullets_survivors fx fy speed bullets
      enemies b2 hb2
    exact ⟨b, hb, hx, hy, by omega⟩
  · intro k hk
    cases hres : (runBullets anchors speed k (enemies, bullets)).2 with
    | nil => rfl
    | cons b2 rest =>
      have hb2 : b2 ∈ (runBullets anchors speed k (enemies, bullets)).2 := by
        rw [hres]
        exact List.mem_cons_self _ _
      obtain ⟨hle, hor⟩ := runBullets_y_bound anchors speed hs k
        (enemies, bullets) Y hY b2 hb2
      rcases hor with h0 | hk0
      · omega
      · subst hk0
        push_cast at hk
        omega

/-- Witness for `bullet_strict_descent_and_removal`: a single bullet at row 2
with speed 2 and no enemies. -/
theorem bullet_strict_descent_and_removal_witness :
    ((1 : Nat) ≤ 2 ∧ (0 : Int) ≤ 2 ∧
      ∀ b ∈ ([⟨0, 2⟩] : List Bullet), b.y ≤ 2) ∧
    ((∀ formation_x formation_y : Int,
      ∀ b2 ∈ (move_bullets_and_apply_hits [⟨0, 2⟩] [] formation_x formation_y
          2).2,
        ∃ b ∈ ([⟨0, 2⟩] : List Bullet),
          b2.x = b.x ∧ b2.y = b.y - 2 ∧ b2.y < b.y) ∧
    ∀ k : Nat, (2 : Int) < k * 2 →
      (runBullets (fun _ => (0, 0)) 2 k ([], [⟨0, 2⟩])).2 = []) :=
  ⟨⟨by decide, by decide, by decide⟩,
    bullet_strict_descent_and_removal [] [⟨0, 2⟩] (fun _ => (0, 0)) 2 2
      (by decide) (by decide) (by decide)⟩

/-- C7 counterexample: a bullet created at row 2 with `bullet_speed = 2` is
still live after `ceil(2 / 2) = 1` tick (it sits at row 0, which is inside
the grid); it is only removed on the second tick. -/
theorem bullet_alive_at_claimed_bound :
    (runBullets (fun _ => (0, 0)) 2 1 ([], [⟨0, 2⟩])).2 = [⟨0, 0⟩] ∧
    (runBullets (fun _ => (0, 0)) 2 2 ([], [⟨0, 2⟩])).2 = [] :=
  ⟨rfl, rfl⟩


/-- The automaton grid: `height` rows of `width` cell levels, row-major. -/
abbrev Grid := List (List Nat)

/-- The five-color palette of the scripts; only its length (5) matters for
the automaton (`(current_level + 1) % len(PALETTE)`). -/
def PALETTE : List String :=
  ["#161b22", "#0e4429", "#006d32", "#26a641", "#39d353"]

/-- The fixed turn table of `step_ant`: `0..4 => Right, Left, Right, Left,
Right`, right being `+1` and left `-1` on the heading. -/
def turnsList : List Int := [1, -1, 1, -1, 1]

/-- Read `grid[y][x]` (both indices in range under the theorems'
hypotheses). -/
def gridGet (g : Grid) (x y : Nat) : Nat :=
  (g.getD y []).getD x 0

/-- Write `grid[y][x] = v`. -/
def setCell (g : Grid) (x y : Nat) (v : Nat) : Grid :=
  g.set y ((g.getD y []).set x v)

/-- The new heading of `step_ant`:
`(direction + turns[current_level]) % 4`. -/
def antTurn (g : Grid) (ant_x ant_y direction : Int) : Int :=
  (direction + turnsList.getD (gridGet g ant_x.toNat ant_y.toNat) 0).emod 4

/-- The grid after `step_ant` increments the visited cell:
`grid[ant_y][ant_x] = (current_level + 1) % len(PALETTE)`. -/
def antWrite (g : Grid) (ant_x ant_y : Int) : Grid :=
  setCell g ant_x.toNat ant_y.toNat
    ((gridGet g ant_x.toNat ant_y.toNat + 1) % PALETTE.length)

/-- `step_ant` from the automaton script: turn by the current cell's level,
cycle the cell's level, then move one cell in the new heading with toroidal
wrap (`0` up, `1` right, `2` down, `3` left).  Returns
`(grid, ant_x, ant_y, direction)`. -/
def step_ant (g : Grid) (ant_x ant_y direction : Int) :
    Grid × Int × Int × Int :=
  if antTurn g ant_x ant_y direction = 0 then
    (antWrite g ant_x ant_y, ant_x, (ant_y - 1).emod (g.length : Int),
      antTurn g ant_x ant_y direction)
  else if antTurn g ant_x ant_y direction = 1 then
    (antWrite g ant_x ant_y, (ant_x + 1).emod ((g.headD []).length : Int),
      ant_y, antTurn g ant_x ant_y direction)
  else if antTurn g ant_x ant_y direction = 2 then
    (antWrite g ant_x ant_y, ant_x, (ant_y + 1).emod (g.length : Int),
      antTurn g ant_x ant_y direction)
  else
    (antWrite g ant_x ant_y, (ant_x - 1).emod ((g.headD []).length : Int),
      ant_y, antTurn g ant_x ant_y direction)

lemma setCell_length (g : Grid) (x y v : Nat) :
    (setCell g x y v).length = g.length := by
  unfold setCell
  exact List.length_set g _ _

lemma getD_set_same {α : Type} (l : List α) (i : Nat) (a d : α)
    (h : i < l.length) : (l.set i a).getD i d = a := by
  rw [List.getD_eq_getElem?_getD, List.getElem?_set_self (by simpa using h)]
  rfl

lemma getD_set_other {α : Type} (l : List α) (i j : Nat) (a d : α)
    (h : j ≠ i) : (l.set i a).getD j d = l.getD j d := by
  rw [List.getD_eq_getElem?_getD, List.getElem?_set_ne (by omega),
    ← List.getD_eq_getElem?_getD]

lemma gridGet_setCell_same (g : Grid) (x y v : Nat)
    (hy : y < g.length) (hx : x < (g.getD y []).length) :
    gridGet (setCell g x y v) x y = v := by
  unfold gridGet setCell
  rw [getD_set_same g y _ _ hy]
  exact getD_set_same _ x _ _ hx

lemma gridGet_setCell_other (g : Grid) (x y v i j : Nat)
    (h : (i, j) ≠ (x, y)) : gridGet (setCell g x y v) i j = gridGet g i j := by
  unfold gridGet setCell
  by_cases hj : j = y
  · subst hj
    have hix : i ≠ x := by
      intro hix
      exact h (by rw [hix])
    by_cases hylen : j < g.length
    · rw [getD_set_same g j _ _ hylen]
      exact getD_set_other _ x i _ _ hix
    · have hset : g.set j ((g.getD j []).set x v) = g :=
        List.set_eq_of_length_le (by omega)
      rw [hset]
  · rw [getD_set_other g y j _ _ hj]

lemma setCell_rows_length (g : Grid) (x y v : Nat) (j : Nat) :
    ((setCell g x y v).getD j []).length = (g.getD j []).length := by
  unfold setCell
  by_cases hj : j = y
  · subst hj
    by_cases hylen : j < g.length
    · rw [getD_set_same g j _ _ hylen, List.length_set]
    · have hset : g.set j ((g.getD j []).set x v) = g :=
        List.set_eq_of_length_le (by omega)
      rw [hset]
  · rw [getD_set_other g y j _ _ hj]

lemma setCell_levels (g : Grid) (x y v : Nat)
    (hlev : ∀ row ∈ g, ∀ w ∈ row, w ≤ 4) (hv : v ≤ 4) :
    ∀ row ∈ setCell g x y v, ∀ w ∈ row, w ≤ 4 := by
  intro row hrow w hw
  unfold setCell at hrow
  rcases List.mem_or_eq_of_mem_set hrow with hmem | heq
  · exact hlev row hmem w hw
  · subst heq
    rcases List.mem_or_eq_of_mem_set hw with hmem2 | heq2
    · by_cases hylen : y < g.length
      · exact hlev (g.getD y []) (by
          rw [List.getD_eq_getElem?_getD, List.getElem?_eq_getElem hylen]
          exact List.getElem_mem hylen) w hmem2
      · rw [List.getD_eq_default _ _ (by omega)] at hmem2
        exact absurd hmem2 (List.not_mem_nil w)
    · omega

lemma getD_mem {α : Type} (l : List α) (i : Nat) (d : α) (h : i < l.length) :
    l.getD i d ∈ l := by
  rw [List.getD_eq_getElem?_getD, List.getElem?_eq_getElem h]
  simp only [Option.getD_some]
  exact List.getElem_mem h

lemma antTurn_nonneg (g : Grid) (ant_x ant_y direction : Int) :
    0 ≤ antTurn g ant_x ant_y direction := by
  unfold antTurn
  exact Int.emod_nonneg _ (by norm_num)

lemma antTurn_lt_four (g : Grid) (ant_x ant_y direction : Int) :
    antTurn g ant_x ant_y direction < 4 := by
  unfold antTurn
  exact Int.emod_lt_of_pos _ (by norm_num)

lemma step_ant_cases (g : Grid) (ant_x ant_y direction : Int) :
    (step_ant g ant_x ant_y direction).1 = antWrite g ant_x ant_y ∧
    (step_ant g ant_x ant_y direction).2.2.2 = antTurn g ant_x ant_y direction ∧
    ((antTurn g ant_x ant_y direction = 0 ∧
        (step_ant g ant_x ant_y direction).2.1 = ant_x ∧
        (step_ant g ant_x ant_y direction).2.2.1 =
          (ant_y - 1).emod (g.length : Int)) ∨
      (antTurn g ant_x ant_y direction = 1 ∧
        (step_ant g ant_x ant_y direction).2.1 =
          (ant_x + 1).emod ((g.headD []).length : Int) ∧
        (step_ant g ant_x ant_y direction).2.2.1 = ant_y) ∨
      (antTurn g ant_x ant_y direction = 2 ∧
        (step_ant g ant_x ant_y direction).2.1 = ant_x ∧
        (step_ant g ant_x ant_y direction).2.2.1 =
          (ant_y + 1).emod (g.length : Int)) ∨
      (antTurn g ant_x ant_y direction = 3 ∧
        (step_ant g ant_x ant_y direction).2.1 =
          (ant_x - 1).emod ((g.headD []).length : Int) ∧
        (step_ant g ant_x ant_y direction).2.2.1 = ant_y)) := by
  have hb0 := antTurn_nonneg g ant_x ant_y direction
  have hb4 := antTurn_lt_four g ant_x ant_y direction
  unfold step_ant
  split_ifs with h0 h1 h2
  · exact ⟨rfl, rfl, Or.inl ⟨h0, rfl, rfl⟩⟩
  · exact ⟨rfl, rfl, Or.inr (Or.inl ⟨h1, rfl, rfl⟩)⟩
  · exact ⟨rfl, rfl, Or.inr (Or.inr (Or.inl ⟨h2, rfl, rfl⟩))⟩
  · exact ⟨rfl, rfl, Or.inr (Or.inr (Or.inr ⟨by omega, rfl, rfl⟩))⟩

/-- C3: one automaton step turns right (heading `+1 mod 4`) on levels 0, 2, 4
and left (heading `-1 mod 4`) on levels 1, 3, rewrites the visited cell to
`(L+1) mod 5`, keeps every cell level in `[0, 4]`, and moves the agent one
cell in the new heading (`0` up, `1` right, `2` down, `3` left) with toroidal
wrap, so the new position stays inside `[0,width-1] × [0,height-1]`. -/
theorem ant_step_spec (g : Grid) (ant_x ant_y direction : Int)
    (width height : Nat)
    (hh : g.length = height) (hhpos : 0 < height) (hwpos : 0 < width)
    (hrect : ∀ row ∈ g, row.length = width)
    (hx0 : 0 ≤ ant_x) (hx1 : ant_x < width)
    (hy0 : 0 ≤ ant_y) (hy1 : ant_y < height)
    (hlev : ∀ row ∈ g, ∀ v ∈ row, v ≤ 4) :
    (0 ≤ (step_ant g ant_x ant_y direction).2.1 ∧
      (step_ant g ant_x ant_y direction).2.1 < width ∧
      0 ≤ (step_ant g ant_x ant_y direction).2.2.1 ∧
      (step_ant g ant_x ant_y direction).2.2.1 < height) ∧
    ((gridGet g ant_x.toNat ant_y.toNat = 0 ∨
        gridGet g ant_x.toNat ant_y.toNat = 2 ∨
        gridGet g ant_x.toNat ant_y.toNat = 4 →
      (step_ant g ant_x ant_y direction).2.2.2 = (direction + 1).emod 4) ∧
      (gridGet g ant_x.toNat ant_y.toNat = 1 ∨
        gridGet g ant_x.toNat ant_y.toNat = 3 →
      (step_ant g ant_x ant_y direction).2.2.2 = (direction - 1).emod 4)) ∧
    gridGet (step_ant g ant_x ant_y direction).1 ant_x.toNat ant_y.toNat =
      (gridGet g ant_x.toNat ant_y.toNat + 1) % 5 ∧
    (∀ row ∈ (step_ant g ant_x ant_y direction).1, ∀ v ∈ row, v ≤ 4) ∧
    (((step_ant g ant_x ant_y direction).2.2.2 = 0 →
        (step_ant g ant_x ant_y direction).2.1 = ant_x ∧
        (step_ant g ant_x ant_y direction).2.2.1 =
          (ant_y - 1).emod (height : Int)) ∧
      ((step_ant g ant_x ant_y direction).2.2.2 = 1 →
        (step_ant g ant_x ant_y direction).2.1 =
          (ant_x + 1).emod (width : Int) ∧
        (step_ant g ant_x ant_y direction).2.2.1 = ant_y) ∧
      ((step_ant g ant_x ant_y direction).2.2.2 = 2 →
        (step_ant g ant_x ant_y direction).2.1 = ant_x ∧
        (step_ant g ant_x ant_y direction).2.2.1 =
          (ant_y + 1).emod (height : Int)) ∧
      ((step_ant g ant_x ant_y direction).2.2.2 = 3 →
        (step_ant g ant_x ant_y direction).2.1 =
          (ant_x - 1).emod (width : Int) ∧
        (step_ant g ant_x ant_y direction).2.2.1 = ant_y)) := by
  have hhead : (g.headD []).length = width := by
    cases g with
    | nil => simp at hh; omega
    | cons r t => exact hrect r (List.mem_cons_self r t)
  have hylt : ant_y.toNat < g.length := by omega
  have hrowmem : g.getD ant_y.toNat [] ∈ g := getD_mem g _ [] hylt
  have hxlt : ant_x.toNat < (g.getD ant_y.toNat []).length := by
    rw [hrect _ hrowmem]; omega
  have hLmem : gridGet g ant_x.toNat ant_y.toNat ∈ g.getD ant_y.toNat [] := by
    unfold gridGet
    exact getD_mem (g.getD ant_y.toNat []) ant_x.toNat 0 hxlt
  have hLle : gridGet g ant_x.toNat ant_y.toNat ≤ 4 := hlev _ hrowmem _ hLmem
  obtain ⟨hgrid, hdir, hpos⟩ := step_ant_cases g ant_x ant_y direction
  have hhemod0 : ((g.length : Int)) = (height : Int) := by exact_mod_cast hh
  have hwemod : (((g.headD []).length : Int)) = (width : Int) := by
    exact_mod_cast hhead
  have hturnR : gridGet g ant_x.toNat ant_y.toNat = 0 ∨
      gridGet g ant_x.toNat ant_y.toNat = 2 ∨
      gridGet g ant_x.toNat ant_y.toNat = 4 →
      (step_ant g ant_x ant_y direction).2.2.2 = (direction + 1).emod 4 := by
    intro hc
    rw [hdir]
    unfold antTurn
    rcases hc with hc | hc | hc <;> rw [hc] <;> rfl
  have hturnL : gridGet g ant_x.toNat ant_y.toNat = 1 ∨
      gridGet g ant_x.toNat ant_y.toNat = 3 →
      (step_ant g ant_x ant_y direction).2.2.2 = (direction - 1).emod 4 := by
    intro hc
    rw [hdir]
    unfold antTurn
    rcases hc with hc | hc <;> rw [hc] <;>
      simp [turnsList, Int.sub_eq_add_neg]
  have hcell : gridGet (step_ant g ant_x ant_y direction).1 ant_x.toNat
      ant_y.toNat = (gridGet g ant_x.toNat ant_y.toNat + 1) % 5 := by
    rw [hgrid]
    unfold antWrite
    exact gridGet_setCell_same g _ _ _ hylt hxlt
  have hlev2 : ∀ row ∈ (step_ant g ant_x ant_y direction).1, ∀ v ∈ row,
      v ≤ 4 := by
    rw [hgrid]
    unfold antWrite
    exact setCell_levels g _ _ _ hlev
      (by rw [show PALETTE.length = 5 from rfl]; omega)
  have hb0 := antTurn_nonneg g ant_x ant_y direction
  have hb4 := antTurn_lt_four g ant_x ant_y direction
  rcases hpos with ⟨ht, hx', hy'⟩ | ⟨ht, hx', hy'⟩ | ⟨ht, hx', hy'⟩ |
    ⟨ht, hx', hy'⟩
  · refine ⟨⟨by omega, by omega, ?_, ?_⟩, ⟨hturnR, hturnL⟩, hcell, hlev2,
      ?_, ?_, ?_, ?_⟩
    · rw [hy', hhemod0]
      exact Int.emod_nonneg _ (by omega)
    · rw [hy', hhemod0]
      exact Int.emod_lt_of_pos _ (by omega)
    · intro _
      rw [hy', hhemod0]
      exact ⟨hx', rfl⟩
    · intro hc
      rw [hdir, ht] at hc
      omega
    · intro hc
      rw [hdir, ht] at hc
      omega
    · intro hc
      rw [hdir, ht] at hc
      omega
  · refine ⟨⟨?_, ?_, by omega, by omega⟩, ⟨hturnR, hturnL⟩, hcell, hlev2,
      ?_, ?_, ?_, ?_⟩
    · rw [hx', hwemod]
      exact Int.emod_nonneg _ (by omega)
    · rw [hx', hwemod]
      exact Int.emod_lt_of_pos _ (by omega)
    · intro hc
      rw [hdir, ht] at hc
      omega
    · intro _
      rw [hx', hwemod]
      exact ⟨rfl, hy'⟩
    · intro hc
      rw [hdir, ht] at hc
      omega
    · intro hc
      rw [hdir, ht] at hc
      omega
  · refine ⟨⟨by omega, by omega, ?_, ?_⟩, ⟨hturnR, hturnL⟩, hcell, hlev2,
      ?_, ?_, ?_, ?_⟩
    · rw [hy', hhemod0]
      exact Int.emod_nonneg _ (by omega)
    · rw [hy', hhemod0]
      exact Int.emod_lt_of_pos _ (by omega)
    · intro hc
      rw [hdir, ht] at hc
      omega
    · intro hc
      rw [hdir, ht] at hc
      omega
    · intro _
      rw [hy', hhemod0]
      exact ⟨hx', rfl⟩
    · intro hc
      rw [hdir, ht] at hc
      omega
  · refine ⟨⟨?_, ?_, by omega, by omega⟩, ⟨hturnR, hturnL⟩, hcell, hlev2,
      ?_, ?_, ?_, ?_⟩
    · rw [hx', hwemod]
      exact Int.emod_nonneg _ (by omega)
    · rw [hx', hwemod]
      exact Int.emod_lt_of_pos _ (by omega)
    · intro hc
      rw [hdir, ht] at hc
      omega
    · intro hc
      rw [hdir, ht] at hc
      omega
    · intro hc
      rw [hdir, ht] at hc
      omega
    · intro _
      rw [hx', hwemod]
      exact ⟨rfl, hy'⟩

/-- Witness for `ant_step_spec`: the spec's scenario, a uniform level-0 3×3
grid with the agent at `(0,0)` heading right. -/
theorem ant_step_spec_witness :
    ((List.length ([[0,0,0],[0,0,0],[0,0,0]] : Grid) = 3 ∧ 0 < 3 ∧ 0 < 3 ∧
      (∀ row ∈ ([[0,0,0],[0,0,0],[0,0,0]] : Grid), row.length = 3) ∧
      (0 : Int) ≤ 0 ∧ (0 : Int) < 3 ∧
      (∀ row ∈ ([[0,0,0],[0,0,0],[0,0,0]] : Grid), ∀ v ∈ row, v ≤ 4)) ∧
    ((0 ≤ (step_ant [[0,0,0],[0,0,0],[0,0,0]] 0 0 1).2.1 ∧
      (step_ant [[0,0,0],[0,0,0],[0,0,0]] 0 0 1).2.1 < 3 ∧
      0 ≤ (step_ant [[0,0,0],[0,0,0],[0,0,0]] 0 0 1).2.2.1 ∧
      (step_ant [[0,0,0],[0,0,0],[0,0,0]] 0 0 1).2.2.1 < 3) ∧
    ((gridGet [[0,0,0],[0,0,0],[0,0,0]] 0 0 = 0 ∨
        gridGet [[0,0,0],[0,0,0],[0,0,0]] 0 0 = 2 ∨
        gridGet [[0,0,0],[0,0,0],[0,0,0]] 0 0 = 4 →
      (step_ant [[0,0,0],[0,0,0],[0,0,0]] 0 0 1).2.2.2 = ((1 : Int) + 1).emod 4) ∧
      (gridGet [[0,0,0],[0,0,0],[0,0,0]] 0 0 = 1 ∨
        gridGet [[0,0,0],[0,0,0],[0,0,0]] 0 0 = 3 →
      (step_ant [[0,0,0],[0,0,0],[0,0,0]] 0 0 1).2.2.2 = ((1 : Int) - 1).emod 4)) ∧
    gridGet (step_ant [[0,0,0],[0,0,0],[0,0,0]] 0 0 1).1 0 0 =
      (gridGet [[0,0,0],[0,0,0],[0,0,0]] 0 0 + 1) % 5 ∧
    (∀ row ∈ (step_ant [[0,0,0],[0,0,0],[0,0,0]] 0 0 1).1, ∀ v ∈ row,
      v ≤ 4) ∧
    (((step_ant [[0,0,0],[0,0,0],[0,0,0]] 0 0 1).2.2.2 = 0 →
        (step_ant [[0,0,0],[0,0,0],[0,0,0]] 0 0 1).2.1 = 0 ∧
        (step_ant [[0,0,0],[0,0,0],[0,0,0]] 0 0 1).2.2.1 =
          ((0 : Int) - 1).emod 3) ∧
      ((step_ant [[0,0,0],[0,0,0],[0,0,0]] 0 0 1).2.2.2 = 1 →
        (step_ant [[0,0,0],[0,0,0],[0,0,0]] 0 0 1).2.1 =
          ((0 : Int) + 1).emod 3 ∧
        (step_ant [[0,0,0],[0,0,0],[0,0,0]] 0 0 1).2.2.1 = 0) ∧
      ((step_ant [[0,0,0],[0,0,0],[0,0,0]] 0 0 1).2.2.2 = 2 →
        (step_ant [[0,0,0],[0,0,0],[0,0,0]] 0 0 1).2.1 = 0 ∧
        (step_ant [[0,0,0],[0,0,0],[0,0,0]] 0 0 1).2.2.1 =
          ((0 : Int) + 1).emod 3) ∧
      ((step_ant [[0,0,0],[0,0,0],[0,0,0]] 0 0 1).2.2.2 = 3 →
        (step_ant [[0,0,0],[0,0,0],[0,0,0]] 0 0 1).2.1 =
          ((0 : Int) - 1).emod 3 ∧
        (step_ant [[0,0,0],[0,0,0],[0,0,0]] 0 0 1).2.2.1 = 0)))) :=
  ⟨⟨by decide, by decide, by decide, by decide, by decide, by decide,
      by decide⟩,
    ant_step_spec [[0,0,0],[0,0,0],[0,0,0]] 0 0 1 3 3 (by decide) (by decide)
      (by decide) (by decide) (by decide) (by decide) (by decide) (by decide)
      (by decide)⟩

/-- C10: one automaton step leaves the grid dimensions unchanged, rewrites
exactly the cell the agent occupied at the start of the step (to a genuinely
different level), and leaves every other cell unchanged. -/
theorem ant_step_frame (g : Grid) (ant_x ant_y direction : Int)
    (width height : Nat)
    (hh : g.length = height) (hhpos : 0 < height) (hwpos : 0 < width)
    (hrect : ∀ row ∈ g, row.length = width)
    (hx0 : 0 ≤ ant_x) (hx1 : ant_x < width)
    (hy0 : 0 ≤ ant_y) (hy1 : ant_y < height)
    (hlev : ∀ row ∈ g, ∀ v ∈ row, v ≤ 4) :
    (step_ant g ant_x ant_y direction).1.length = g.length ∧
    (∀ j : Nat, ((step_ant g ant_x ant_y direction).1.getD j []).length =
      (g.getD j []).length) ∧
    gridGet (step_ant g ant_x ant_y direction).1 ant_x.toNat ant_y.toNat =
      (gridGet g ant_x.toNat ant_y.toNat + 1) % 5 ∧
    gridGet (step_ant g ant_x ant_y direction).1 ant_x.toNat ant_y.toNat ≠
      gridGet g ant_x.toNat ant_y.toNat ∧
    ∀ i j : Nat, (i, j) ≠ (ant_x.toNat, ant_y.toNat) →
      gridGet (step_ant g ant_x ant_y direction).1 i j = gridGet g i j := by
  obtain ⟨hgrid, _, _⟩ := step_ant_cases g ant_x ant_y direction
  have hylt : ant_y.toNat < g.length := by omega
  have hrowmem : g.getD ant_y.toNat [] ∈ g := getD_mem g _ [] hylt
  have hxlt : ant_x.toNat < (g.getD ant_y.toNat []).length := by
    rw [hrect _ hrowmem]; omega
  have hLle : gridGet g ant_x.toNat ant_y.toNat ≤ 4 :=
    hlev _ hrowmem _ (by
      unfold gridGet
      exact getD_mem (g.getD ant_y.toNat []) ant_x.toNat 0 hxlt)
  have hcell : gridGet (step_ant g ant_x ant_y direction).1 ant_x.toNat
      ant_y.toNat = (gridGet g ant_x.toNat ant_y.toNat + 1) % 5 := by
    rw [hgrid]
    unfold antWrite
    exact gridGet_setCell_same g _ _ _ hylt hxlt
  refine ⟨?_, ?_, hcell, ?_, ?_⟩
  · rw [hgrid]
    unfold antWrite
    exact setCell_length g _ _ _
  · intro j
    rw [hgrid]
    unfold antWrite
    exact setCell_rows_length g _ _ _ j
  · rw [hcell]
    omega
  · intro i j hij
    rw [hgrid]
    unfold antWrite
    exact gridGet_setCell_other g _ _ _ i j hij

/-- Witness for `ant_step_frame`: a 2×2 grid with distinct levels, agent at
`(1, 0)`. -/
theorem ant_step_frame_witness :
    ((List.length ([[1,0],[0,2]] : Grid) = 2 ∧ 0 < 2 ∧ 0 < 2 ∧
      (∀ row ∈ ([[1,0],[0,2]] : Grid), row.length = 2) ∧
      (0 : Int) ≤ 1 ∧ (1 : Int) < 2 ∧ (0 : Int) ≤ 0 ∧ (0 : Int) < 2 ∧
      (∀ row ∈ ([[1,0],[0,2]] : Grid), ∀ v ∈ row, v ≤ 4)) ∧
    ((step_ant [[1,0],[0,2]] 1 0 0).1.length =
        List.length ([[1,0],[0,2]] : Grid) ∧
      (∀ j : Nat, ((step_ant [[1,0],[0,2]] 1 0 0).1.getD j []).length =
        (([[1,0],[0,2]] : Grid).getD j []).length) ∧
      gridGet (step_ant [[1,0],[0,2]] 1 0 0).1 1 0 =
        (gridGet [[1,0],[0,2]] 1 0 + 1) % 5 ∧
      gridGet (step_ant [[1,0],[0,2]] 1 0 0).1 1 0 ≠
        gridGet [[1,0],[0,2]] 1 0 ∧
      ∀ i j : Nat, (i, j) ≠ (1, 0) →
        gridGet (step_ant [[1,0],[0,2]] 1 0 0).1 i j =
          gridGet [[1,0],[0,2]] i j)) :=
  ⟨⟨by decide, by decide, by decide, by decide, by decide, by decide,
      by decide, by decide, by decide⟩,
    ant_step_frame [[1,0],[0,2]] 1 0 0 2 2 (by decide) (by decide) (by decide)
      (by decide) (by decide) (by decide) (by decide) (by decide) (by decide)⟩

/-- `build_enemies` from the shooter script: one entry `(x, y) ↦ level` per
grid cell with a positive level. -/
def build_enemies (grid : Grid) : Enemies :=
  (grid.enum.map (fun p =>
    p.2.enum.filterMap (fun q =>
      if 0 < q.2 then some (((q.1 : Int), (p.1 : Int)), (q.2 : Int))
      else none))).flatten

/-- The input validation of the shooter `generate_gif` (lines 274-277): build
the formation and raise on an empty one, before any simulation step. -/
def shooterInit (grid : Grid) : Except String Enemies :=
  if (build_enemies grid).isEmpty then
    Except.error "No enemies found. No contributions available to render."
  else Except.ok (build_enemies grid)

/-- `find_ant_start` from the automaton script: a uniformly random in-bounds
cell.  The two `random.randrange` draws are supplied as oracle values
`rx, ry` (reduced modulo the range, as `randrange` guarantees); `randrange`
raises only when its bound is 0. -/
def find_ant_start (grid : Grid) (rx ry : Nat) :
    Except String (Nat × Nat) :=
  if grid.length = 0 ∨ (grid.getD 0 []).length = 0 then
    Except.error "empty range for randrange()"
  else
    Except.ok (rx % (grid.getD 0 []).length, ry % grid.length)

/-- The construction phase of the automaton `generate_gif` (lines 176-201):
it picks an ant start and initial direction 1; it performs NO check that any
cell has a positive level. -/
def lifeInit (grid : Grid) (rx ry : Nat) :
    Except String ((Nat × Nat) × Int) :=
  match find_ant_start grid rx ry with
  | Except.error e => Except.error e
  | Except.ok pos => Except.ok (pos, 1)

/-- The 7×7 all-zero grid of the spec's scenario. -/
def zeroGrid7 : Grid := List.replicate 7 (List.replicate 7 0)

lemma build_enemies_eq_nil (grid : Grid)
    (hzero : ∀ row ∈ grid, ∀ v ∈ row, v = 0) : build_enemies grid = [] := by
  unfold build_enemies
  rw [List.flatten_eq_nil_iff]
  intro l hl
  obtain ⟨p, hp, rfl⟩ := List.mem_map.mp hl
  rw [List.filterMap_eq_nil_iff]
  intro q hq
  have hrow : p.2 ∈ grid := by
    have := List.mem_enum_iff_getElem?.mp hp
    exact List.mem_iff_getElem?.mpr ⟨p.1, this⟩
  have hv : q.2 ∈ p.2 := by
    have := List.mem_enum_iff_getElem?.mp hq
    exact List.mem_iff_getElem?.mpr ⟨q.1, this⟩
  have hq2 : q.2 = 0 := hzero p.2 hrow q.2 hv
  simp [hq2]

/-- C9 counterexample: on the all-zero 7×7 grid, the Shooter engine's
construction fails with the "no enemies" input error, but the Automaton
engine's construction succeeds (it performs no such validation), so the claim
that BOTH engines reject the grid is false. -/
theorem empty_grid_rejected_only_by_shooter :
    shooterInit zeroGrid7 =
      Except.error "No enemies found. No contributions available to render." ∧
    lifeInit zeroGrid7 0 0 = Except.ok ((0, 0), 1) :=
  ⟨rfl, rfl⟩

/-- C9 (amended): a grid in which no cell has a positive level is rejected by
the SHOOTER engine's construction with the "no enemies" input error, before
any simulation step; the AUTOMATON engine performs no such validation and its
construction succeeds on any grid with nonzero dimensions. -/
theorem no_active_cells_validation (grid : Grid) (rx ry : Nat)
    (hzero : ∀ row ∈ grid, ∀ v ∈ row, v = 0) :
    shooterInit grid =
      Except.error "No enemies found. No contributions available to render." ∧
    (0 < grid.length → 0 < (grid.getD 0 []).length →
      lifeInit grid rx ry =
        Except.ok ((rx % (grid.getD 0 []).length, ry % grid.length), 1)) := by
  constructor
  · unfold shooterInit
    rw [build_enemies_eq_nil grid hzero]
    rfl
  · intro hh hw
    unfold lifeInit find_ant_start
    rw [if_neg (by omega)]

/-- Witness for `no_active_cells_validation` at the all-zero 7×7 grid. -/
theorem no_active_cells_validation_witness :
    (∀ row ∈ zeroGrid7, ∀ v ∈ row, v = 0) ∧
    (shooterInit zeroGrid7 =
      Except.error "No enemies found. No contributions available to render." ∧
    (0 < zeroGrid7.length → 0 < (zeroGrid7.getD 0 []).length →
      lifeInit zeroGrid7 3 5 =
        Except.ok ((3 % (zeroGrid7.getD 0 []).length,
          5 % zeroGrid7.length), 1))) :=
  ⟨by decide, no_active_cells_validation zeroGrid7 3 5 (by decide)⟩

/-- Stable insertion of `x` into `l`, placing `x` before the first element
whose key is strictly greater (so equal keys keep their original order, as
Python's stable `sorted`). -/
def insertByKey (key : Int → Int) (x : Int) : List Int → List Int
  | [] => [x]
  | y :: ys => if key y ≤ key x then y :: insertByKey key x ys else x :: y :: ys

/-- Stable sort by key (insertion sort), the semantics of Python's
`sorted(l, key=...)`. -/
def sortByKey (key : Int → Int) (l : List Int) : List Int :=
  l.foldl (fun acc x => insertByKey key x acc) []

/-- The distinct absolute columns of live enemies in ascending order:
`sorted({formation_x + ex for (ex, _), hp in enemies.items() if hp > 0})`. -/
def enemyColumnsSorted (enemies : Enemies) (formation_x : Int) : List Int :=
  sortByKey (fun c => c)
    (((enemies.filter (fun e => decide (0 < e.2))).map
      (fun e => formation_x + e.1.1)).dedup)

/-- The candidate pool of the randomized chaos branch: the enemy columns
sorted by distance to the ship, truncated to the 12 nearest
(`sorted(enemy_columns, key=lambda col: abs(col - ship_x))[:12]`). -/
def nearestColumns (cols : List Int) (ship_x : Int) : List Int :=
  (sortByKey (fun col => |col - ship_x|) cols).take 12

/-- The chaos-mode target update of `generate_gif` (lines 326-340).  The two
random draws are oracles: `r` is the `random.random()` value in `[0, 1)` and
`choose` is the `random.choice` selection from a nonempty list. -/
def updateTargetChaos (enemies : Enemies)
    (formation_x formation_y ship_x current_target : Int) (tick : Nat)
    (r : ℚ) (choose : List Int → Int) : Int :=
  if tick % 8 = 0 ∨ ship_x = current_target then
    if (enemyColumnsSorted enemies formation_x).isEmpty then current_target
    else if r < 45 / 100 then
      choose (nearestColumns (enemyColumnsSorted enemies formation_x) ship_x)
    else
      (pick_target_column enemies formation_x formation_y ship_x).getD
        current_target
  else current_target

/-- The per-tick target update of `generate_gif` (lines 323-344): chaos mode
(more than 220 live entries) follows the gated randomized policy, otherwise
the three-key priority target is recomputed every tick.  (`getD` only fires
when there is no live enemy, where Python's `max` would raise.) -/
def updateTarget (enemies : Enemies)
    (formation_x formation_y ship_x current_target : Int) (tick : Nat)
    (r : ℚ) (choose : List Int → Int) : Int :=
  if 220 < enemies.length then
    updateTargetChaos enemies formation_x formation_y ship_x current_target
      tick r choose
  else
    (pick_target_column enemies formation_x formation_y ship_x).getD
      current_target

lemma mem_insertByKey (key : Int → Int) (x a : Int) (l : List Int) :
    a ∈ insertByKey key x l ↔ a = x ∨ a ∈ l := by
  induction l with
  | nil => simp [insertByKey]
  | cons y ys ih =>
    unfold insertByKey
    by_cases hk : key y ≤ key x
    · rw [if_pos hk]
      simp only [List.mem_cons, ih]
      tauto
    · rw [if_neg hk]
      simp only [List.mem_cons]

lemma mem_sortByKey (key : Int → Int) (l : List Int) (a : Int) :
    a ∈ sortByKey key l ↔ a ∈ l := by
  suffices h : ∀ acc : List Int,
      (a ∈ l.foldl (fun acc x => insertByKey key x acc) acc ↔
        a ∈ acc ∨ a ∈ l) by
    unfold sortByKey
    rw [h []]
    simp
  induction l with
  | nil => intro acc; simp
  | cons y ys ih =>
    intro acc
    simp only [List.foldl_cons]
    rw [ih (insertByKey key y acc), mem_insertByKey]
    simp only [List.mem_cons]
    tauto

lemma sorted_insertByKey (key : Int → Int) (x : Int) (l : List Int)
    (hl : l.Pairwise (fun a b => key a ≤ key b)) :
    (insertByKey key x l).Pairwise (fun a b => key a ≤ key b) := by
  induction l with
  | nil => simp [insertByKey]
  | cons y ys ih =>
    rw [List.pairwise_cons] at hl
    unfold insertByKey
    by_cases hk : key y ≤ key x
    · rw [if_pos hk]
      rw [List.pairwise_cons]
      constructor
      · intro a ha
        rcases (mem_insertByKey key x a ys).mp ha with rfl | ha
        · exact hk
        · exact hl.1 a ha
      · exact ih hl.2
    · rw [if_neg hk]
      rw [List.pairwise_cons]
      constructor
      · intro a ha
        rcases List.mem_cons.mp ha with rfl | ha
        · omega
        · have := hl.1 a ha
          omega
      · rw [List.pairwise_cons]
        exact ⟨hl.1, hl.2⟩

lemma sorted_sortByKey (key : Int → Int) (l : List Int) :
    (sortByKey key l).Pairwise (fun a b => key a ≤ key b) := by
  suffices h : ∀ acc : List Int, acc.Pairwise (fun a b => key a ≤ key b) →
      (l.foldl (fun acc x => insertByKey key x acc) acc).Pairwise
        (fun a b => key a ≤ key b) by
    exact h [] (by simp)
  induction l with
  | nil => intro acc hacc; simpa using hacc
  | cons y ys ih =>
    intro acc hacc
    simp only [List.foldl_cons]
    exact ih _ (sorted_insertByKey key y acc hacc)

/-- C6: in chaos mode (more than 220 live enemies) the target is recomputed
only on ticks with `tick % 8 == 0` or when the ship has reached the previous
target — on every other tick it is left unchanged — and on a recomputation
tick: if the `random()` draw is below 0.45 the new target is the
`random.choice` pick from the pool of the 12 enemy columns nearest the ship
(every pool member is an enemy column, the pool has at most 12 entries, and
no pool member is farther from the ship than any column left out of the
pool), otherwise it is the full three-key priority target. -/
theorem chaos_retarget_cadence (enemies : Enemies)
    (formation_x formation_y ship_x current_target : Int) (tick : Nat)
    (r : ℚ) (choose : List Int → Int)
    (hchaos : 220 < enemies.length)
    (hchoose : ∀ l : List Int, l ≠ [] → choose l ∈ l) :
    (¬(tick % 8 = 0 ∨ ship_x = current_target) →
      updateTarget enemies formation_x formation_y ship_x current_target tick
        r choose = current_target) ∧
    ((tick % 8 = 0 ∨ ship_x = current_target) →
      enemyColumnsSorted enemies formation_x ≠ [] →
      ((r < 45 / 100 →
        updateTarget enemies formation_x formation_y ship_x current_target
          tick r choose =
          choose (nearestColumns (enemyColumnsSorted enemies formation_x)
            ship_x) ∧
        updateTarget enemies formation_x formation_y ship_x current_target
          tick r choose ∈ enemyColumnsSorted enemies formation_x ∧
        (nearestColumns (enemyColumnsSorted enemies formation_x)
          ship_x).length ≤ 12 ∧
        (∀ c ∈ nearestColumns (enemyColumnsSorted enemies formation_x) ship_x,
          ∀ c2 ∈ (sortByKey (fun col => |col - ship_x|)
            (enemyColumnsSorted enemies formation_x)).drop 12,
          |c - ship_x| ≤ |c2 - ship_x|)) ∧
      (45 / 100 ≤ r →
        updateTarget enemies formation_x formation_y ship_x current_target
          tick r choose =
          (pick_target_column enemies formation_x formation_y ship_x).getD
            current_target))) := by
  have hchaosif : updateTarget enemies formation_x formation_y ship_x
      current_target tick r choose =
      updateTargetChaos enemies formation_x formation_y ship_x current_target
        tick r choose := by
    unfold updateTarget
    rw [if_pos hchaos]
  constructor
  · intro hnot
    rw [hchaosif]
    unfold updateTargetChaos
    rw [if_neg hnot]
  · intro hcad hne
    have hifne : (enemyColumnsSorted enemies formation_x).isEmpty = false := by
      cases h : enemyColumnsSorted enemies formation_x with
      | nil => exact absurd h hne
      | cons a l => rfl
    constructor
    · intro hr
      have heq : updateTarget enemies formation_x formation_y ship_x
          current_target tick r choose =
          choose (nearestColumns (enemyColumnsSorted enemies formation_x)
            ship_x) := by
        rw [hchaosif]
        unfold updateTargetChaos
        rw [if_pos hcad, if_neg (by simp [hifne]), if_pos hr]
      have hpoolne : nearestColumns (enemyColumnsSorted enemies formation_x)
          ship_x ≠ [] := by
        unfold nearestColumns
        cases hs : sortByKey (fun col => |col - ship_x|)
            (enemyColumnsSorted enemies formation_x) with
        | nil =>
          exfalso
          obtain ⟨c, hc⟩ := List.exists_mem_of_ne_nil _ hne
          have hcs : c ∈ sortByKey (fun col => |col - ship_x|)
              (enemyColumnsSorted enemies formation_x) :=
            (mem_sortByKey _ _ _).mpr hc
          rw [hs] at hcs
          exact absurd hcs (List.not_mem_nil c)
        | cons a l => simp
      have hsub : ∀ c ∈ nearestColumns (enemyColumnsSorted enemies
          formation_x) ship_x, c ∈ enemyColumnsSorted enemies formation_x := by
        intro c hc
        unfold nearestColumns at hc
        exact (mem_sortByKey _ _ _).mp (List.mem_of_mem_take hc)
      refine ⟨heq, ?_, ?_, ?_⟩
      · rw [heq]
        exact hsub _ (hchoose _ hpoolne)
      · unfold nearestColumns
        exact List.length_take_le 12 _
      · intro c hc c2 hc2
        have hsorted := sorted_sortByKey (fun col => |col - ship_x|)
          (enemyColumnsSorted enemies formation_x)
        rw [← List.take_append_drop 12 (sortByKey (fun col => |col - ship_x|)
          (enemyColumnsSorted enemies formation_x))] at hsorted
        unfold nearestColumns at hc
        exact (List.pairwise_append.mp hsorted).2.2 c hc c2 hc2
    · intro hr
      rw [hchaosif]
      unfold updateTargetChaos
      rw [if_pos hcad, if_neg (by simp [hifne]), if_neg (not_lt.mpr hr)]

/-- A 221-entry formation used to trigger chaos mode in the witness. -/
def chaosEnemies : Enemies :=
  (List.range 221).map (fun i => ((Int.ofNat i, 0), 1))

/-- Witness for `chaos_retarget_cadence`: 221 live enemies, an off-cadence
tick (`3 % 8 ≠ 0`) with the ship away from the previous target, and
`random.choice` modelled as taking the head. -/
theorem chaos_retarget_cadence_witness :
    (220 < chaosEnemies.length ∧
      (∀ l : List Int, l ≠ [] → l.headD 0 ∈ l)) ∧
    ((¬((3 : Nat) % 8 = 0 ∨ (5 : Int) = 7) →
      updateTarget chaosEnemies 0 0 5 7 3 (1 / 2) (fun l => l.headD 0) = 7) ∧
    (((3 : Nat) % 8 = 0 ∨ (5 : Int) = 7) →
      enemyColumnsSorted chaosEnemies 0 ≠ [] →
      (((1 : ℚ) / 2 < 45 / 100 →
        updateTarget chaosEnemies 0 0 5 7 3 (1 / 2) (fun l => l.headD 0) =
          (fun l => l.headD 0)
            (nearestColumns (enemyColumnsSorted chaosEnemies 0) 5) ∧
        updateTarget chaosEnemies 0 0 5 7 3 (1 / 2) (fun l => l.headD 0) ∈
          enemyColumnsSorted chaosEnemies 0 ∧
        (nearestColumns (enemyColumnsSorted chaosEnemies 0) 5).length ≤ 12 ∧
        (∀ c ∈ nearestColumns (enemyColumnsSorted chaosEnemies 0) 5,
          ∀ c2 ∈ (sortByKey (fun col => |col - 5|)
            (enemyColumnsSorted chaosEnemies 0)).drop 12,
          |c - 5| ≤ |c2 - 5|)) ∧
      ((45 : ℚ) / 100 ≤ 1 / 2 →
        updateTarget chaosEnemies 0 0 5 7 3 (1 / 2) (fun l => l.headD 0) =
          (pick_target_column chaosEnemies 0 0 5).getD 7)))) :=
  ⟨⟨by unfold chaosEnemies; rw [List.length_map, List.length_range]; omega,
      fun l hl => by
      cases l with
      | nil => exact absurd rfl hl
      | cons a t => simp⟩,
    chaos_retarget_cadence chaosEnemies 0 0 5 7 3 (1 / 2) (fun l => l.headD 0)
      (by unfold chaosEnemies; rw [List.length_map, List.length_range]; omega)
      (fun l hl => by
        cases l with
        | nil => exact absurd rfl hl
        | cons a t => simp)⟩
